import Mathlib

/-!
Shallow embedding of `visualqc/vqc.py`: the subject validation and
review-orchestration workflow (check_id_list, _prepare_images,
generate_visualizations, clean_up) together with the path, line-stripping
and filesystem primitives they use.
-/

set_option autoImplicit false

namespace VisualQC

/-! ### Path model (os.path.join, realpath) -/

/-- Models Python `b.startswith('/')` as used by `os.path.join` on POSIX. -/
def startsWithSlash (s : String) : Bool :=
  match s.toList.head? with
  | some c => c == '/'
  | none => false

/-- Models Python `a.endswith('/')` as used by `os.path.join` on POSIX. -/
def endsWithSlash (s : String) : Bool :=
  match s.toList.getLast? with
  | some c => c == '/'
  | none => false

/-- Models POSIX `os.path.join(a, b)` (the `pjoin` of the source): an absolute
`b` replaces `a`; otherwise a separator is inserted unless `a` is empty or
already ends in a slash. -/
def pjoin2 (a b : String) : String :=
  if startsWithSlash b then b
  else if a = "" || endsWithSlash a then a ++ b
  else a ++ "/" ++ b

/-- Models the four-argument `pjoin(a, b, c, d)` used by the source. -/
def pjoin4 (a b c d : String) : String :=
  pjoin2 (pjoin2 (pjoin2 a b) c) d

/-! ### Module-level constants of `vqc.py` -/

def t1_mri_identifier : String := "orig.mgz"

def fs_seg_identifier : String := "aparc+aseg.mgz"

/-- `required_files = (t1_mri_identifier, fs_seg_identifier)`. -/
def required_files : List String := [t1_mri_identifier, fs_seg_identifier]

/-! ### Line stripping (`line.strip('\n ')`) -/

/-- Removal of leading and trailing characters satisfying `p`, modelling
Python `str.strip(chars)` with `p` the membership test of `chars`. -/
def stripWhile (p : Char → Bool) (s : String) : String :=
  String.mk (((s.toList.dropWhile p).reverse.dropWhile p).reverse)

/-- Models `line.strip('\n ')` from `check_id_list`: strips only newline and
space characters from both ends. -/
def stripNlSpace (s : String) : String :=
  stripWhile (fun c => c == '\n' || c == ' ') s

/-- Modelled from the spec: trimming of ALL surrounding whitespace (spaces,
tabs, carriage returns, newlines) from a line, as the spec sentence
"each line is trimmed of surrounding whitespace/newlines" reads when taken
literally. Kept separate so it can be compared with `stripNlSpace`, the
stripping the source actually performs. -/
def trimAllWhitespace (s : String) : String :=
  stripWhile (fun c => c.isWhitespace) s

/-! ### Filesystem abstraction

The source consults the filesystem through `os.path.exists`,
`os.path.getsize` and `os.path.realpath`; these are modelled as an explicit
record so that theorems quantify over the state of the filesystem. -/

structure FS where
  pexists : String → Bool
  getsize : String → Nat
  realpath : String → String

/-- The resolved required-file paths of one subject:
`[realpath(pjoin(fs_dir, subject_id, 'mri', req_file)) for req_file in required_files]`. -/
def requiredPaths (fs : FS) (fs_dir subject_id : String) : List String :=
  required_files.map (fun req_file => fs.realpath (pjoin4 fs_dir subject_id "mri" req_file))

/-- The failing paths among `paths`:
`[f for f in path_list if not pexists(f) or os.path.getsize(f) <= 0]`. -/
def invalidFiles (fs : FS) (paths : List String) : List String :=
  paths.filter (fun p => !fs.pexists p || decide (fs.getsize p ≤ 0))

/-- A subject is usable when none of its required files is missing or empty
(the `else` branch of the loop in `check_id_list`). -/
def usableB (fs : FS) (fs_dir subject_id : String) : Bool :=
  !(decide ((invalidFiles fs (requiredPaths fs fs_dir subject_id)).length > 0))

/-- The classification loop of `check_id_list`: returns
`(id_list_out, id_list_err, invalid_list)` — the usable subjects, the skipped
subjects, and every failing path, each in input order. -/
def classifySubjects (fs : FS) (fs_dir : String) :
    List String → List String × List String × List String
  | [] => ([], [], [])
  | subject_id :: rest =>
    if (invalidFiles fs (requiredPaths fs fs_dir subject_id)).length > 0 then
      ((classifySubjects fs fs_dir rest).1,
        subject_id :: (classifySubjects fs fs_dir rest).2.1,
        invalidFiles fs (requiredPaths fs fs_dir subject_id) ++
          (classifySubjects fs fs_dir rest).2.2)
    else
      (subject_id :: (classifySubjects fs fs_dir rest).1,
        (classifySubjects fs fs_dir rest).2.1,
        (classifySubjects fs fs_dir rest).2.2)

/-- The candidate IDs: the stripped lines of the listing resource when one is
given, otherwise the subdirectory listing of the data root. -/
def candidate_ids (id_list_in : Option (List String)) (dir_listing : List String) :
    List String :=
  match id_list_in with
  | some lines => lines.map (fun line => stripNlSpace line)
  | none => dir_listing

/-- Models `check_id_list(id_list_in, fs_dir)`: builds the candidate list,
classifies each candidate, raises `ValueError` when no subject is usable,
and otherwise returns the usable subjects. `id_list_in` is the sequence of
lines of the listing resource when one was provided and readable. -/
def check_id_list (id_list_in : Option (List String)) (dir_listing : List String)
    (fs : FS) (fs_dir : String) : Except String (List String) :=
  if (classifySubjects fs fs_dir (candidate_ids id_list_in dir_listing)).1.length < 1 then
    .error "All the subject IDs do not have the required files - unable to proceed."
  else .ok (classifySubjects fs fs_dir (candidate_ids id_list_in dir_listing)).1

/-! ### Image preparation (`_prepare_images`) -/

/-- The ways `_prepare_images` can raise: a `read_image` failure carrying its
role label (`error_msg` argument), or the `NotImplementedError` for
unimplemented visualization kinds. -/
inductive PrepError where
  | loadFailure (role : String)
  | notImplemented (msg : String)
deriving DecidableEq

/-- Models `_prepare_images(fs_dir, subject_id, out_dir, vis_type)`.
`read_image` is the opaque image-loading capability (`None` models a raised
load error) and `symmetrize` the opaque
`void_subcortical_symmetrize_cortical` transform. The source loads both
volumes first, then checks the visualization kind, then computes
`out_path = pjoin(out_dir, 'visual_qc_' + vis_type + '_' + subject_id)`. -/
def _prepare_images {Img : Type} (read_image : String → Option Img)
    (symmetrize : Img → Img) (fs_dir subject_id out_dir vis_type : String) :
    Except PrepError (Img × Img × String) :=
  match read_image (pjoin4 fs_dir subject_id "mri" t1_mri_identifier) with
  | none => .error (.loadFailure "T1 mri")
  | some t1_mri =>
    match read_image (pjoin4 fs_dir subject_id "mri" fs_seg_identifier) with
    | none => .error (.loadFailure "aparc+aseg segmentation")
    | some fs_seg =>
      if vis_type ∈ ["cortical_volumetric"] then
        .ok (t1_mri, symmetrize fs_seg,
          pjoin2 out_dir ("visual_qc_" ++ vis_type ++ "_" ++ subject_id))
      else
        .error (.notImplemented
          "Other visualization combinations have not been implemented yet! Stay tuned.")

/-- Whether a preparation outcome is the `NotImplementedError` case. -/
def isNotImplementedErr {α : Type} : Except PrepError α → Bool
  | .error (.notImplemented _) => true
  | _ => false

/-! ### Review orchestration (`generate_visualizations`, `clean_up`)

`ratings` is a Python dict (insertion-ordered, assignment to an existing key
updates the value in place), modelled as an association list. The external
`review_and_rate` capability is modelled as a function from the call index
and the subject id to `(rating, quit_now)`; the call index lets distinct
review sessions of the same subject return different ratings. -/

/-- Assignment `d[k] = v` on an insertion-ordered dict modelled as an
association list: updates the value in place when `k` is present, appends
`(k, v)` otherwise. -/
def dictInsert {ρ : Type} (k : String) (v : ρ) :
    List (String × ρ) → List (String × ρ)
  | [] => [(k, v)]
  | (k', v') :: rest =>
    if k' = k then (k', v) :: rest else (k', v') :: dictInsert k v rest

/-- Observable outcome of one run of `generate_visualizations`: the final
ratings dict, the subjects prepared and reviewed in order, the argument of
the `clean_up` call when one happened (`none` when `clean_up` was never
invoked), and whether `sys.exit()` was reached. -/
structure RunResult (ρ : Type) where
  ratings : List (String × ρ)
  prepared : List String
  reviewed : List String
  cleanUp : Option (List (String × ρ))
  exited : Bool
deriving DecidableEq

/-- Prepends already-processed subjects to the prepared/reviewed traces of
the rest of a run. -/
def prependTrace {ρ : Type} (pre : List String) (r : RunResult ρ) : RunResult ρ :=
  ⟨r.ratings, pre ++ r.prepared, pre ++ r.reviewed, r.cleanUp, r.exited⟩

/-- The subject loop of `generate_visualizations`, carrying the next call
index and the ratings dict accumulated so far. Each subject is prepared then
reviewed; its rating is recorded at once; on `quit_now` the run calls
`clean_up(ratings, out_dir)` and exits, abandoning the remaining subjects. -/
def genVisLoop {ρ : Type} (reviewer : Nat → String → ρ × Bool) :
    Nat → List (String × ρ) → List String → RunResult ρ
  | _, ratings, [] => ⟨ratings, [], [], none, false⟩
  | k, ratings, subject_id :: rest =>
    if (reviewer k subject_id).2 then
      ⟨dictInsert subject_id (reviewer k subject_id).1 ratings, [subject_id], [subject_id],
        some (dictInsert subject_id (reviewer k subject_id).1 ratings), true⟩
    else
      prependTrace [subject_id]
        (genVisLoop reviewer (k + 1) (dictInsert subject_id (reviewer k subject_id).1 ratings) rest)

/-- Models `generate_visualizations(vis_type, fs_dir, id_list, out_dir,
alpha_set)`: `ratings = dict()` then the loop over `id_list`. The loop body
returns normally (no `clean_up` call) when no review requests a stop. -/
def generate_visualizations {ρ : Type} (reviewer : Nat → String → ρ × Bool)
    (id_list : List String) : RunResult ρ :=
  genVisLoop reviewer 0 [] id_list

/-- The ratings dict after reviewing the subjects of `l` in order, starting
from dict `R` and call index `k` (the pure content of the no-stop loop). -/
def ratingsAfter {ρ : Type} (reviewer : Nat → String → ρ × Bool) :
    Nat → List (String × ρ) → List String → List (String × ρ)
  | _, R, [] => R
  | k, R, s :: rest => ratingsAfter reviewer (k + 1) (dictInsert s (reviewer k s).1 R) rest

/-- The validation-then-review pipeline of `parse_args`/`cli_run`:
`check_id_list` runs first and its fatal errors abort the run before any
subject is prepared or reviewed. -/
def run_pipeline {ρ : Type} (reviewer : Nat → String → ρ × Bool)
    (id_list_in : Option (List String)) (dir_listing : List String)
    (fs : FS) (fs_dir : String) : Except String (RunResult ρ) :=
  match check_id_list id_list_in dir_listing fs fs_dir with
  | .error e => .error e
  | .ok id_list => .ok (generate_visualizations reviewer id_list)

/-! ### Concrete filesystems for evaluation -/

/-- A filesystem on which every path exists with size 1 and `realpath` is the
identity. -/
def fsAllGood : FS := ⟨fun _ => true, fun _ => 1, fun p => p⟩

/-- A filesystem on which no path exists. -/
def fsNone : FS := ⟨fun _ => false, fun _ => 0, fun p => p⟩

/-- A filesystem holding exactly one non-empty file, `root/a/mri/orig.mgz`. -/
def fsOrigOnly : FS := ⟨fun p => p == "root/a/mri/orig.mgz", fun _ => 1, fun p => p⟩

/-- A filesystem holding exactly subject `a`'s two required files, non-empty. -/
def fsSubjectA : FS :=
  ⟨fun p => p == "root/a/mri/orig.mgz" || p == "root/a/mri/aparc+aseg.mgz",
    fun _ => 1, fun p => p⟩

/-! ### Lemmas about the ratings dict -/

theorem lookup_cons {ρ : Type} (key s : String) (v : ρ) (l : List (String × ρ)) :
    List.lookup key ((s, v) :: l) = if key = s then some v else List.lookup key l := by
  by_cases h : key = s
  · simp [List.lookup, h]
  · have hb : (key == s) = false := beq_false_of_ne h
    simp [List.lookup, hb, h]

theorem lookup_dictInsert {ρ : Type} (key s : String) (v : ρ) (R : List (String × ρ)) :
    List.lookup key (dictInsert s v R) = if key = s then some v else List.lookup key R := by
  induction R with
  | nil => simp [dictInsert, lookup_cons]
  | cons hd tl ih =>
    obtain ⟨k', v'⟩ := hd
    by_cases hks : k' = s
    · subst hks
      by_cases hk : key = k' <;> simp [dictInsert, lookup_cons, hk]
    · simp only [dictInsert, if_neg hks]
      rw [lookup_cons, lookup_cons, ih]
      by_cases hk : key = k' <;> by_cases hs : key = s
      · exact absurd (hk.symm.trans hs) hks
      · simp [hk, hs, hks]
      · simp [hk, hs, Ne.symm hks]
      · simp [hk, hs]

theorem mem_keys_dictInsert {ρ : Type} (x s : String) (v : ρ) (R : List (String × ρ)) :
    x ∈ (dictInsert s v R).map Prod.fst ↔ x = s ∨ x ∈ R.map Prod.fst := by
  induction R with
  | nil => simp [dictInsert]
  | cons hd tl ih =>
    obtain ⟨k', v'⟩ := hd
    by_cases hks : k' = s
    · subst hks
      simp [dictInsert]
    · simp [dictInsert, hks, ih]
      tauto

theorem nodup_keys_dictInsert {ρ : Type} (s : String) (v : ρ) (R : List (String × ρ))
    (h : (R.map Prod.fst).Nodup) : ((dictInsert s v R).map Prod.fst).Nodup := by
  induction R with
  | nil => simp [dictInsert]
  | cons hd tl ih =>
    obtain ⟨k', v'⟩ := hd
    rw [List.map_cons, List.nodup_cons] at h
    by_cases hks : k' = s
    · subst hks
      simpa [dictInsert] using h
    · rw [dictInsert]
      simp only [if_neg hks, List.map_cons, List.nodup_cons]
      refine ⟨fun hmem => ?_, ih h.2⟩
      rw [mem_keys_dictInsert] at hmem
      rcases hmem with h1 | h2
      · exact hks h1
      · exact h.1 h2

theorem length_dictInsert_le {ρ : Type} (s : String) (v : ρ) (R : List (String × ρ)) :
    (dictInsert s v R).length ≤ R.length + 1 := by
  induction R with
  | nil => simp [dictInsert]
  | cons hd tl ih =>
    obtain ⟨k', v'⟩ := hd
    by_cases hks : k' = s
    · simp [dictInsert, hks]
    · simp only [dictInsert, if_neg hks, List.length_cons]
      omega

theorem ratingsAfter_append {ρ : Type} (reviewer : Nat → String → ρ × Bool)
    (a b : List String) : ∀ (k : Nat) (R : List (String × ρ)),
    ratingsAfter reviewer k R (a ++ b) =
      ratingsAfter reviewer (k + a.length) (ratingsAfter reviewer k R a) b := by
  induction a with
  | nil => intro k R; simp [ratingsAfter]
  | cons s a' ih =>
    intro k R
    rw [List.cons_append, ratingsAfter, ih, List.length_cons]
    have harith : k + 1 + a'.length = k + (a'.length + 1) := by omega
    rw [harith]
    rfl

theorem lookup_ratingsAfter_isSome {ρ : Type} (reviewer : Nat → String → ρ × Bool)
    (l : List String) : ∀ (k : Nat) (R : List (String × ρ)) (key : String),
    (List.lookup key (ratingsAfter reviewer k R l)).isSome ↔
      key ∈ l ∨ (List.lookup key R).isSome := by
  induction l with
  | nil => intro k R key; simp [ratingsAfter]
  | cons s rest ih =>
    intro k R key
    rw [ratingsAfter, ih, lookup_dictInsert]
    by_cases h : key = s
    · simp [h]
    · simp [h]

theorem lookup_ratingsAfter_not_mem {ρ : Type} (reviewer : Nat → String → ρ × Bool)
    (l : List String) : ∀ (k : Nat) (R : List (String × ρ)) (key : String), key ∉ l →
    List.lookup key (ratingsAfter reviewer k R l) = List.lookup key R := by
  induction l with
  | nil => intro k R key _; rfl
  | cons s rest ih =>
    intro k R key hmem
    rw [List.mem_cons, not_or] at hmem
    rw [ratingsAfter, ih _ _ _ hmem.2, lookup_dictInsert, if_neg hmem.1]

theorem nodup_keys_ratingsAfter {ρ : Type} (reviewer : Nat → String → ρ × Bool)
    (l : List String) : ∀ (k : Nat) (R : List (String × ρ)),
    (R.map Prod.fst).Nodup → ((ratingsAfter reviewer k R l).map Prod.fst).Nodup := by
  induction l with
  | nil => intro k R h; exact h
  | cons s rest ih =>
    intro k R h
    exact ih _ _ (nodup_keys_dictInsert _ _ _ h)

theorem length_ratingsAfter_le {ρ : Type} (reviewer : Nat → String → ρ × Bool)
    (l : List String) : ∀ (k : Nat) (R : List (String × ρ)),
    (ratingsAfter reviewer k R l).length ≤ R.length + l.length := by
  induction l with
  | nil => intro k R; simp [ratingsAfter]
  | cons s rest ih =>
    intro k R
    have h1 := ih (k + 1) (dictInsert s (reviewer k s).1 R)
    have h2 := length_dictInsert_le s (reviewer k s).1 R
    rw [ratingsAfter]
    calc (ratingsAfter reviewer (k + 1) (dictInsert s (reviewer k s).1 R) rest).length
        ≤ (dictInsert s (reviewer k s).1 R).length + rest.length := h1
      _ ≤ R.length + 1 + rest.length := by omega
      _ = R.length + (s :: rest).length := by simp; omega

/-! ### Lemmas about the review loop -/

theorem prependTrace_append {ρ : Type} (a b : List String) (r : RunResult ρ) :
    prependTrace (a ++ b) r = prependTrace a (prependTrace b r) := by
  simp [prependTrace]

theorem genVisLoop_no_stop_front {ρ : Type} (reviewer : Nat → String → ρ × Bool)
    (pre : List String) : ∀ (k : Nat) (R : List (String × ρ)),
    (∀ i (h : i < pre.length), (reviewer (k + i) (pre.get ⟨i, h⟩)).2 = false) →
    ∀ rest, genVisLoop reviewer k R (pre ++ rest) =
      prependTrace pre
        (genVisLoop reviewer (k + pre.length) (ratingsAfter reviewer k R pre) rest) := by
  induction pre with
  | nil =>
    intro k R _ rest
    simp [prependTrace, ratingsAfter]
  | cons s pre' ih =>
    intro k R hns rest
    have h0 : (reviewer k s).2 = false := by
      have := hns 0 (by simp)
      simpa using this
    have hns' : ∀ i (h : i < pre'.length),
        (reviewer (k + 1 + i) (pre'.get ⟨i, h⟩)).2 = false := by
      intro i h
      have := hns (i + 1) (by simpa using Nat.succ_lt_succ h)
      have harith : k + (i + 1) = k + 1 + i := by omega
      rw [harith] at this
      exact this
    rw [List.cons_append, genVisLoop, if_neg (by simp [h0]),
      ih (k + 1) (dictInsert s (reviewer k s).1 R) hns' rest]
    have harith : k + 1 + pre'.length = k + (s :: pre').length := by simp; omega
    rw [harith, ← prependTrace_append]
    rfl

theorem genVisLoop_no_stop {ρ : Type} (reviewer : Nat → String → ρ × Bool)
    (l : List String) (k : Nat) (R : List (String × ρ))
    (hns : ∀ i (h : i < l.length), (reviewer (k + i) (l.get ⟨i, h⟩)).2 = false) :
    genVisLoop reviewer k R l = ⟨ratingsAfter reviewer k R l, l, l, none, false⟩ := by
  have := genVisLoop_no_stop_front reviewer l k R hns []
  rw [List.append_nil] at this
  rw [this, genVisLoop, prependTrace]
  simp

/-! ### Lemmas about the subject validator -/

theorem classifySubjects_fst (fs : FS) (fs_dir : String) (l : List String) :
    (classifySubjects fs fs_dir l).1 = l.filter (fun s => usableB fs fs_dir s) := by
  induction l with
  | nil => rfl
  | cons s rest ih =>
    by_cases h : (invalidFiles fs (requiredPaths fs fs_dir s)).length > 0 <;>
      simp [classifySubjects, List.filter_cons, usableB, h, ih]

theorem classifySubjects_snd (fs : FS) (fs_dir : String) (l : List String) :
    (classifySubjects fs fs_dir l).2.1 = l.filter (fun s => !usableB fs fs_dir s) := by
  induction l with
  | nil => rfl
  | cons s rest ih =>
    by_cases h : (invalidFiles fs (requiredPaths fs fs_dir s)).length > 0 <;>
      simp [classifySubjects, List.filter_cons, usableB, h, ih]

theorem count_filter_add (p : String → Bool) (l : List String) (x : String) :
    (l.filter p).count x + (l.filter (fun s => !p s)).count x = l.count x := by
  induction l with
  | nil => rfl
  | cons a rest ih =>
    by_cases h : p a <;> simp [List.filter_cons, h, List.count_cons] <;> omega

theorem mem_invalid_classify (fs : FS) (fs_dir : String) (l : List String)
    (s : String) (hmem : s ∈ l) (p : String)
    (hp : p ∈ invalidFiles fs (requiredPaths fs fs_dir s)) :
    p ∈ (classifySubjects fs fs_dir l).2.2 := by
  induction l with
  | nil => cases hmem
  | cons a rest ih =>
    rcases List.mem_cons.mp hmem with heq | hrest
    · subst heq
      have hlen : (invalidFiles fs (requiredPaths fs fs_dir s)).length > 0 :=
        List.length_pos.mpr (List.ne_nil_of_mem hp)
      rw [classifySubjects, if_pos hlen]
      exact List.mem_append.mpr (Or.inl hp)
    · by_cases h : (invalidFiles fs (requiredPaths fs fs_dir a)).length > 0
      · rw [classifySubjects, if_pos h]
        exact List.mem_append.mpr (Or.inr (ih hrest))
      · rw [classifySubjects, if_neg h]
        exact ih hrest

/-! ### Lemmas about path joining and line stripping -/

theorem endsWithSlash_append_slash (a : String) : endsWithSlash (a ++ "/") = true := by
  unfold endsWithSlash
  have h : (a ++ "/").toList = a.toList ++ ['/'] := by
    show (a ++ "/").data = a.data ++ ['/']
    rw [String.data_append]
  rw [h, List.getLast?_concat]
  rfl

theorem pjoin2_empty_right (a : String) :
    pjoin2 a "" = if a = "" || endsWithSlash a then a else a ++ "/" := by
  unfold pjoin2
  have h1 : startsWithSlash "" = false := rfl
  rw [h1]
  simp only [Bool.false_eq_true, if_false]
  by_cases h : (a = "" || endsWithSlash a) = true
  · rw [if_pos h, if_pos h, String.append_empty]
  · rw [if_neg h, if_neg h, String.append_empty]

theorem pjoin_skips_empty_component (root f : String) :
    pjoin4 root "" "mri" f = pjoin2 (pjoin2 root "mri") f := by
  unfold pjoin4
  suffices h : pjoin2 (pjoin2 root "") "mri" = pjoin2 root "mri" by rw [h]
  rw [pjoin2_empty_right]
  by_cases h1 : root = ""
  · simp [h1]
  · by_cases h2 : endsWithSlash root = true
    · simp [h1, h2]
    · have h2' : endsWithSlash root = false := by
        cases hx : endsWithSlash root
        · rfl
        · exact absurd hx h2
      rw [if_neg (by simp [h1, h2'])]
      unfold pjoin2
      have hs : startsWithSlash "mri" = false := rfl
      have he : endsWithSlash (root ++ "/") = true := endsWithSlash_append_slash root
      rw [hs, he]
      simp [h1, h2', String.append_assoc]

theorem stripNlSpace_all_blank (line : String)
    (h : ∀ c ∈ line.toList, c = ' ' ∨ c = '\n') : stripNlSpace line = "" := by
  unfold stripNlSpace stripWhile
  have hd : line.toList.dropWhile (fun c => c == '\n' || c == ' ') = [] := by
    apply List.dropWhile_eq_nil_iff.mpr
    intro c hc
    rcases h c hc with h1 | h1 <;> simp [h1]
  rw [hd]
  rfl

/-! ### Claim theorems -/

/-- C2: for every candidate subject list and every root directory, subject
validation partitions the candidates: the usable and skipped sequences are
the order-preserving filters of the candidate list by usability, together
they contain every candidate exactly once (counted with multiplicity), and
no candidate is in both. -/
theorem claim2_validator_partition (fs : FS) (fs_dir : String) (id_list : List String) :
    (classifySubjects fs fs_dir id_list).1 =
        id_list.filter (fun s => usableB fs fs_dir s) ∧
    (classifySubjects fs fs_dir id_list).2.1 =
        id_list.filter (fun s => !usableB fs fs_dir s) ∧
    (∀ s, (classifySubjects fs fs_dir id_list).1.count s +
        (classifySubjects fs fs_dir id_list).2.1.count s = id_list.count s) ∧
    (∀ s, s ∈ (classifySubjects fs fs_dir id_list).1 →
        s ∉ (classifySubjects fs fs_dir id_list).2.1) ∧
    (classifySubjects fs fs_dir id_list).1.Sublist id_list ∧
    (classifySubjects fs fs_dir id_list).2.1.Sublist id_list := by
  refine ⟨classifySubjects_fst fs fs_dir id_list, classifySubjects_snd fs fs_dir id_list,
    ?_, ?_, ?_, ?_⟩
  · intro s
    rw [classifySubjects_fst, classifySubjects_snd]
    exact count_filter_add _ id_list s
  · intro s hmem hmem2
    rw [classifySubjects_fst] at hmem
    rw [classifySubjects_snd] at hmem2
    have h1 := List.of_mem_filter hmem
    have h2 := List.of_mem_filter hmem2
    rw [h1] at h2
    simp at h2
  · rw [classifySubjects_fst]
    exact List.filter_sublist id_list
  · rw [classifySubjects_snd]
    exact List.filter_sublist id_list

/-- Concrete run of C2: with only subject `a`'s files present, candidates
`[a, b]` split into usable `[a]` and skipped `[b]`. -/
theorem claim2_validator_partition_witness :
    (classifySubjects fsSubjectA "root" ["a", "b"]).1 = ["a"] ∧
    (classifySubjects fsSubjectA "root" ["a", "b"]).2.1 = ["b"] := by
  have h := claim2_validator_partition fsSubjectA "root" ["a", "b"]
  exact ⟨h.1.trans (by decide), h.2.1.trans (by decide)⟩

/-- C5: when no candidate has both required files present and non-empty,
the run fails with the fatal `ValueError` of `check_id_list`, before any
subject is prepared or reviewed (the pipeline returns the error instead of
any run trace). -/
theorem claim5_no_usable_subject_fatal {ρ : Type} (reviewer : Nat → String → ρ × Bool)
    (id_list_in : Option (List String)) (dir_listing : List String)
    (fs : FS) (fs_dir : String)
    (h : ∀ s ∈ candidate_ids id_list_in dir_listing, usableB fs fs_dir s = false) :
    run_pipeline reviewer id_list_in dir_listing fs fs_dir =
      .error "All the subject IDs do not have the required files - unable to proceed." := by
  have hfil : (classifySubjects fs fs_dir (candidate_ids id_list_in dir_listing)).1 = [] := by
    rw [classifySubjects_fst, List.filter_eq_nil_iff]
    intro a ha
    simp [h a ha]
  unfold run_pipeline check_id_list
  rw [hfil]
  rfl

/-- Concrete run of C5: an all-missing filesystem turns candidate list `[x]`
into the fatal validation error. -/
theorem claim5_no_usable_subject_fatal_witness :
    run_pipeline (fun i _ => ((i : Nat), false)) (some ["x"]) [] fsNone "root" =
      .error "All the subject IDs do not have the required files - unable to proceed." := by
  apply claim5_no_usable_subject_fatal
  intro s hs
  have hx : s = "x" := by
    simpa [candidate_ids] using hs
  subst hx
  rfl

/-- C6: a subject with a required file absent or empty lands in the skipped
sequence (never in the usable one) wherever it sits in the input list, and
every failing path of that subject is recorded in the reported
missing-path list. -/
theorem claim6_missing_file_skipped (fs : FS) (fs_dir : String) (id_list : List String)
    (s : String) (hmem : s ∈ id_list) (p0 : String)
    (hp0 : p0 ∈ requiredPaths fs fs_dir s)
    (hbad : fs.pexists p0 = false ∨ fs.getsize p0 = 0) :
    s ∈ (classifySubjects fs fs_dir id_list).2.1 ∧
    s ∉ (classifySubjects fs fs_dir id_list).1 ∧
    ∀ p ∈ requiredPaths fs fs_dir s, (fs.pexists p = false ∨ fs.getsize p = 0) →
      p ∈ (classifySubjects fs fs_dir id_list).2.2 := by
  have hpinv : ∀ p ∈ requiredPaths fs fs_dir s, (fs.pexists p = false ∨ fs.getsize p = 0) →
      p ∈ invalidFiles fs (requiredPaths fs fs_dir s) := by
    intro p hp hbadp
    apply List.mem_filter.mpr
    refine ⟨hp, ?_⟩
    rcases hbadp with h1 | h1 <;> simp [h1]
  have hbad0 : p0 ∈ invalidFiles fs (requiredPaths fs fs_dir s) := hpinv p0 hp0 hbad
  have hus : usableB fs fs_dir s = false := by
    unfold usableB
    have hlen : (invalidFiles fs (requiredPaths fs fs_dir s)).length > 0 :=
      List.length_pos.mpr (List.ne_nil_of_mem hbad0)
    simp [hlen]
  refine ⟨?_, ?_, ?_⟩
  · rw [classifySubjects_snd]
    exact List.mem_filter.mpr ⟨hmem, by simp [hus]⟩
  · rw [classifySubjects_fst]
    intro hc
    have hcontra := List.of_mem_filter hc
    rw [hus] at hcontra
    exact Bool.false_ne_true hcontra
  · intro p hp hbadp
    exact mem_invalid_classify fs fs_dir id_list s hmem p (hpinv p hp hbadp)

/-- Concrete run of C6: subject `a` with `orig.mgz` present but
`aparc+aseg.mgz` missing is skipped and the missing path is reported. -/
theorem claim6_missing_file_skipped_witness :
    "a" ∈ (classifySubjects fsOrigOnly "root" ["a"]).2.1 ∧
    "root/a/mri/aparc+aseg.mgz" ∈ (classifySubjects fsOrigOnly "root" ["a"]).2.2 := by
  have h := claim6_missing_file_skipped fsOrigOnly "root" ["a"] "a" (by decide)
    "root/a/mri/aparc+aseg.mgz" (by decide) (Or.inl (by decide))
  exact ⟨h.1, h.2.2 "root/a/mri/aparc+aseg.mgz" (by decide) (Or.inl (by decide))⟩

/-- C1: when the review capability first signals stop at subject `s` (after a
stop-free prefix `pre`), the run exits, `s`'s rating is recorded before
termination, `clean_up` is invoked with exactly the ratings collected so far,
only the subjects up to and including `s` are ever prepared or reviewed, and
the rating record holds precisely the keys of `pre` together with `s`. -/
theorem claim1_early_stop (ρ : Type) (reviewer : Nat → String → ρ × Bool)
    (pre : List String) (s : String) (post : List String)
    (hpre : ∀ i (h : i < pre.length), (reviewer i (pre.get ⟨i, h⟩)).2 = false)
    (hs : (reviewer pre.length s).2 = true) :
    (generate_visualizations reviewer (pre ++ s :: post)).exited = true ∧
    (generate_visualizations reviewer (pre ++ s :: post)).prepared = pre ++ [s] ∧
    (generate_visualizations reviewer (pre ++ s :: post)).reviewed = pre ++ [s] ∧
    (generate_visualizations reviewer (pre ++ s :: post)).cleanUp =
      some (generate_visualizations reviewer (pre ++ s :: post)).ratings ∧
    List.lookup s (generate_visualizations reviewer (pre ++ s :: post)).ratings =
      some (reviewer pre.length s).1 ∧
    (∀ key, (List.lookup key (generate_visualizations reviewer (pre ++ s :: post)).ratings).isSome
      ↔ (key ∈ pre ∨ key = s)) := by
  have hfront := genVisLoop_no_stop_front reviewer pre 0 []
    (by simpa using hpre) (s :: post)
  unfold generate_visualizations
  rw [hfront, Nat.zero_add, genVisLoop, if_pos hs]
  refine ⟨rfl, rfl, rfl, rfl, ?_, ?_⟩
  · show List.lookup s (dictInsert s (reviewer pre.length s).1
      (ratingsAfter reviewer 0 [] pre)) = some (reviewer pre.length s).1
    rw [lookup_dictInsert, if_pos rfl]
  · intro key
    show (List.lookup key (dictInsert s (reviewer pre.length s).1
      (ratingsAfter reviewer 0 [] pre))).isSome ↔ (key ∈ pre ∨ key = s)
    rw [lookup_dictInsert]
    by_cases hk : key = s
    · simp [hk]
    · rw [if_neg hk, lookup_ratingsAfter_isSome]
      simp [List.lookup, hk]

/-- Concrete run of C1: three usable subjects with stop signalled on the
second leave a two-subject trace and a rating for the stopping subject. -/
theorem claim1_early_stop_witness :
    (generate_visualizations (fun i _ => ((i : Nat), i == 1)) ["sub1", "sub2", "sub3"]).exited
        = true ∧
    (generate_visualizations (fun i _ => ((i : Nat), i == 1))
        ["sub1", "sub2", "sub3"]).prepared = ["sub1", "sub2"] ∧
    List.lookup "sub2" (generate_visualizations (fun i _ => ((i : Nat), i == 1))
        ["sub1", "sub2", "sub3"]).ratings = some 1 := by
  have h := claim1_early_stop Nat (fun i _ => ((i : Nat), i == 1)) ["sub1"] "sub2" ["sub3"]
    (by
      intro i hi
      have h0 : i = 0 := by simp at hi; omega
      subst h0
      rfl)
    rfl
  exact ⟨h.1, h.2.1, h.2.2.2.2.1⟩

/-- C3 (code evidence): on normal completion of the whole subject sequence the
source returns without invoking `clean_up`, so the collected ratings are never
handed to persistence; evaluated on a one-subject run with no stop signal. -/
theorem claim3_normal_completion_no_persistence :
    (generate_visualizations (fun i _ => ((i : Nat), false)) ["sub1"]).cleanUp = none ∧
    (generate_visualizations (fun i _ => ((i : Nat), false)) ["sub1"]).ratings
        = [("sub1", 0)] ∧
    (generate_visualizations (fun i _ => ((i : Nat), false)) ["sub1"]).exited = false :=
  ⟨rfl, rfl, rfl⟩

/-- C9: with the same SubjectID occurring more than once among the usable
subjects (last occurrence of `s` at position `l1.length`) and no stop
signalled, every occurrence is reviewed, the rating record keeps at most one
entry per SubjectID (its keys are nodup, so it can be shorter than the
review trace), and the entry for `s` is the rating of the most recently
reviewed occurrence. -/
theorem claim9_duplicate_ids_last_rating (ρ : Type) (reviewer : Nat → String → ρ × Bool)
    (l1 : List String) (s : String) (l2 : List String)
    (hns : ∀ i (h : i < (l1 ++ s :: l2).length),
      (reviewer i ((l1 ++ s :: l2).get ⟨i, h⟩)).2 = false)
    (hlast : s ∉ l2) :
    (generate_visualizations reviewer (l1 ++ s :: l2)).reviewed = l1 ++ s :: l2 ∧
    ((generate_visualizations reviewer (l1 ++ s :: l2)).ratings.map Prod.fst).Nodup ∧
    (generate_visualizations reviewer (l1 ++ s :: l2)).ratings.length
        ≤ (l1 ++ s :: l2).length ∧
    List.lookup s (generate_visualizations reviewer (l1 ++ s :: l2)).ratings =
      some (reviewer l1.length s).1 := by
  unfold generate_visualizations
  rw [genVisLoop_no_stop reviewer (l1 ++ s :: l2) 0 [] (by simpa using hns)]
  refine ⟨rfl, ?_, ?_, ?_⟩
  · exact nodup_keys_ratingsAfter reviewer (l1 ++ s :: l2) 0 [] (by simp)
  · have h := length_ratingsAfter_le reviewer (l1 ++ s :: l2) 0 []
    simpa using h
  · show List.lookup s (ratingsAfter reviewer 0 [] (l1 ++ s :: l2)) =
      some (reviewer l1.length s).1
    rw [ratingsAfter_append, Nat.zero_add, ratingsAfter,
      lookup_ratingsAfter_not_mem reviewer l2 _ _ s hlast,
      lookup_dictInsert, if_pos rfl]

/-- Concrete run of C9: subject `a` reviewed twice with no stop keeps a single
entry carrying the second rating. -/
theorem claim9_duplicate_ids_last_rating_witness :
    List.lookup "a" (generate_visualizations (fun i _ => ((i : Nat), false))
        ["a", "a"]).ratings = some 1 ∧
    ((generate_visualizations (fun i _ => ((i : Nat), false))
        ["a", "a"]).ratings.map Prod.fst).Nodup := by
  have h := claim9_duplicate_ids_last_rating Nat (fun i _ => ((i : Nat), false)) ["a"] "a" []
    (by intro i hi; rfl) (by simp)
  exact ⟨h.2.2.2, h.2.1⟩

/-- C4 counterexample: for `cortical_surface` with an unloadable T1 volume,
preparation fails with the load error, not the not-implemented error — the
claim that it always fails with a not-implemented error is false. -/
theorem claim4_counterexample_load_error :
    isNotImplementedErr (_prepare_images (fun _ => (none : Option Nat)) id
      "root" "s" "out" "cortical_surface") = false ∧
    _prepare_images (fun _ => (none : Option Nat)) id
      "root" "s" "out" "cortical_surface" = .error (.loadFailure "T1 mri") :=
  ⟨rfl, rfl⟩

/-- C4 (amended): for every visualization kind other than `cortical_volumetric`
preparation never returns output, partial or otherwise; it fails with the
not-implemented error whenever both volumes load (the image loads happen
before the kind check, so an unloadable volume yields the load error
instead). -/
theorem claim4_unimplemented_kind_fails {Img : Type} (read_image : String → Option Img)
    (symmetrize : Img → Img) (fs_dir subject_id out_dir vis_type : String)
    (hvis : vis_type ≠ "cortical_volumetric") :
    (∀ out, _prepare_images read_image symmetrize fs_dir subject_id out_dir vis_type
      ≠ .ok out) ∧
    (∀ t1 seg, read_image (pjoin4 fs_dir subject_id "mri" t1_mri_identifier) = some t1 →
      read_image (pjoin4 fs_dir subject_id "mri" fs_seg_identifier) = some seg →
      _prepare_images read_image symmetrize fs_dir subject_id out_dir vis_type =
        .error (.notImplemented
          "Other visualization combinations have not been implemented yet! Stay tuned.")) := by
  constructor
  · intro out hok
    rcases hr1 : read_image (pjoin4 fs_dir subject_id "mri" t1_mri_identifier) with _ | a
    · simp [_prepare_images, hr1] at hok
    · rcases hr2 : read_image (pjoin4 fs_dir subject_id "mri" fs_seg_identifier) with _ | b
      · simp [_prepare_images, hr1, hr2] at hok
      · simp [_prepare_images, hr1, hr2, hvis] at hok
  · intro t1 seg h1 h2
    simp [_prepare_images, h1, h2, hvis]

/-- Concrete run of C4 (amended): `cortical_surface` with both volumes loading
fails with the not-implemented error. -/
theorem claim4_unimplemented_kind_fails_witness :
    _prepare_images (fun _ => some (0 : Nat)) id "root" "s" "out" "cortical_surface" =
      .error (.notImplemented
        "Other visualization combinations have not been implemented yet! Stay tuned.") :=
  (claim4_unimplemented_kind_fails (fun _ => some (0 : Nat)) id "root" "s" "out"
    "cortical_surface" (by decide)).2 0 0 rfl rfl

/-- Helper for C7: a successful preparation's output path stem is exactly
`pjoin(out_dir, 'visual_qc_' + vis_type + '_' + subject_id)`. -/
theorem prep_ok_path {Img : Type} (read_image : String → Option Img)
    (symmetrize : Img → Img) (fs_dir subject_id out_dir vis_type : String)
    (t1 ov : Img) (p : String)
    (h : _prepare_images read_image symmetrize fs_dir subject_id out_dir vis_type
      = .ok (t1, ov, p)) :
    p = pjoin2 out_dir ("visual_qc_" ++ vis_type ++ "_" ++ subject_id) := by
  rcases hr1 : read_image (pjoin4 fs_dir subject_id "mri" t1_mri_identifier) with _ | a
  · simp [_prepare_images, hr1] at h
  · rcases hr2 : read_image (pjoin4 fs_dir subject_id "mri" fs_seg_identifier) with _ | b
    · simp [_prepare_images, hr1, hr2] at h
    · by_cases hv : vis_type ∈ ["cortical_volumetric"]
      · simp only [_prepare_images, hr1, hr2, if_pos hv, Except.ok.injEq,
          Prod.mk.injEq] at h
        exact h.2.2.symm
      · have hv' : vis_type ≠ "cortical_volumetric" := by simpa using hv
        simp [_prepare_images, hr1, hr2, hv'] at h

/-- C7: the output path stem of a successful preparation equals
`<outputRoot>/visual_qc_<visKind>_<subjectID>` (as `os.path.join` builds it),
and it is determined by `(out_dir, vis_type, subject_id)` alone: any second
successful call sharing those inputs — even with another image loader,
transform or data root — yields the identical stem. -/
theorem claim7_output_path_stem {Img : Type} (read_image : String → Option Img)
    (symmetrize : Img → Img) (fs_dir subject_id out_dir vis_type : String)
    (t1 ov : Img) (p : String)
    (h : _prepare_images read_image symmetrize fs_dir subject_id out_dir vis_type
      = .ok (t1, ov, p)) :
    p = pjoin2 out_dir ("visual_qc_" ++ vis_type ++ "_" ++ subject_id) ∧
    ∀ {Img' : Type} (read_image' : String → Option Img') (symmetrize' : Img' → Img')
      (fs_dir' : String) (t1' ov' : Img') (p' : String),
      _prepare_images read_image' symmetrize' fs_dir' subject_id out_dir vis_type
        = .ok (t1', ov', p') → p' = p := by
  refine ⟨prep_ok_path read_image symmetrize fs_dir subject_id out_dir vis_type t1 ov p h, ?_⟩
  intro Img' read_image' symmetrize' fs_dir' t1' ov' p' h'
  rw [prep_ok_path read_image' symmetrize' fs_dir' subject_id out_dir vis_type t1' ov' p' h',
    ← prep_ok_path read_image symmetrize fs_dir subject_id out_dir vis_type t1 ov p h]

/-- Concrete run of C7: the computed stem for `out`, `cortical_volumetric`,
subject `s`. -/
theorem claim7_output_path_stem_witness :
    ("out/visual_qc_cortical_volumetric_s" : String) =
      pjoin2 "out" ("visual_qc_" ++ "cortical_volumetric" ++ "_" ++ "s") :=
  (claim7_output_path_stem (fun _ => some (0 : Nat)) id "root" "s" "out"
    "cortical_volumetric" 0 0 "out/visual_qc_cortical_volumetric_s" rfl).1

/-- C8 counterexample: a line with a leading tab is not trimmed of all
surrounding whitespace — `strip('\n ')` keeps the tab, so the validated
candidate differs from the fully-trimmed SubjectID the claim requires. -/
theorem claim8_counterexample_tab_kept :
    check_id_list (some ["\tb"]) [] fsAllGood "root" ≠
      .ok (["\tb"].map (fun line => trimAllWhitespace line)) := by
  have h1 : check_id_list (some ["\tb"]) [] fsAllGood "root" = .ok ["\tb"] := rfl
  rw [h1]
  intro h
  injection h with h2
  exact absurd h2 (by decide)

/-- C8 (amended): each line of the listing resource is trimmed of surrounding
space and newline characters (only those — a tab survives) to form one
SubjectID; on a filesystem where every subject is usable the validated
candidates are exactly the stripped lines. -/
theorem claim8_lines_stripped (fs : FS) (fs_dir : String) (lines : List String)
    (husable : ∀ s : String, usableB fs fs_dir s = true) (hne : lines ≠ []) :
    check_id_list (some lines) [] fs fs_dir =
      .ok (lines.map (fun line => stripNlSpace line)) := by
  have hfil : (classifySubjects fs fs_dir (lines.map (fun line => stripNlSpace line))).1 =
      lines.map (fun line => stripNlSpace line) := by
    rw [classifySubjects_fst]
    apply List.filter_eq_self.mpr
    intro a _
    exact husable a
  have hc : candidate_ids (some lines) [] = lines.map (fun line => stripNlSpace line) := rfl
  unfold check_id_list
  rw [hc, hfil]
  have hlen : (lines.map (fun line => stripNlSpace line)).length = lines.length :=
    List.length_map lines _
  rw [if_neg (by rw [hlen]; have h := List.length_pos.mpr hne; omega)]

/-- Concrete run of C8 (amended): the listing `["a", " b \n", "c"]` yields
candidates exactly `["a", "b", "c"]`. -/
theorem claim8_lines_stripped_witness :
    check_id_list (some ["a", " b \n", "c"]) [] fsAllGood "root" =
      .ok ["a", "b", "c"] := by
  have h := claim8_lines_stripped fsAllGood "root" ["a", " b \n", "c"]
    (fun _ => rfl) (by simp)
  exact h

/-- C10: a listing line of only spaces and newlines is not discarded — it
strips to the empty SubjectID, whose required-file paths resolve to
`<root>/mri/<fixed-filename>` (the empty path component is skipped by
`os.path.join`), so the empty subject is usable whenever the root itself
holds non-empty `mri/orig.mgz` and `mri/aparc+aseg.mgz`. -/
theorem claim10_blank_line_empty_subject (fs : FS) (root line : String)
    (hch : ∀ c ∈ line.toList, c = ' ' ∨ c = '\n')
    (hfiles : ∀ f ∈ required_files,
      fs.pexists (fs.realpath (pjoin2 (pjoin2 root "mri") f)) = true ∧
      0 < fs.getsize (fs.realpath (pjoin2 (pjoin2 root "mri") f))) :
    stripNlSpace line = "" ∧
    requiredPaths fs root "" =
      required_files.map (fun f => fs.realpath (pjoin2 (pjoin2 root "mri") f)) ∧
    usableB fs root (stripNlSpace line) = true := by
  have hstrip := stripNlSpace_all_blank line hch
  have hpaths : requiredPaths fs root "" =
      required_files.map (fun f => fs.realpath (pjoin2 (pjoin2 root "mri") f)) := by
    unfold requiredPaths
    apply List.map_congr_left
    intro f _
    rw [pjoin_skips_empty_component]
  refine ⟨hstrip, hpaths, ?_⟩
  rw [hstrip]
  unfold usableB
  rw [hpaths]
  have hinv : invalidFiles fs
      (required_files.map (fun f => fs.realpath (pjoin2 (pjoin2 root "mri") f))) = [] := by
    unfold invalidFiles
    rw [List.filter_eq_nil_iff]
    intro p hp
    rw [List.mem_map] at hp
    obtain ⟨f, hf, rfl⟩ := hp
    have hgood := hfiles f hf
    have h2 := hgood.2
    simp [hgood.1]
    omega
  rw [hinv]
  rfl

/-- Concrete run of C10: the line consisting of a space and a newline becomes
the empty SubjectID and is usable on a filesystem where the root's `mri`
files exist non-empty. -/
theorem claim10_blank_line_empty_subject_witness :
    stripNlSpace " \n" = "" ∧ usableB fsAllGood "r" (stripNlSpace " \n") = true := by
  have h := claim10_blank_line_empty_subject fsAllGood "r" " \n" (by decide)
    (by intro f _; exact ⟨rfl, Nat.one_pos⟩)
  exact ⟨h.1, h.2.2⟩

end VisualQC
